import Mathlib

/-!
Shallow embedding of the backup engine of `src/backup.py` (classes
`MetaEntry` and `Metadata`), together with theorems settling the claims
about it.

Modelling conventions:
* a `pathlib.Path` value is a `PyPath`: an absoluteness flag plus the list
  of components; the `PurePath` constructor drops empty and `"."`
  components but keeps `".."` ones, which the embedding reproduces;
* timestamps are integers (the JSON field is annotated `int` in the
  source); Python's `hash` on an integer reduces it modulo `2^61 - 1`
  with the sign preserved (`-1` mapped to `-2`), which `pyHashInt`
  reproduces;
* the filesystem is an association list from a directory to the list of
  regular files found by a recursive scan of it, each file carrying its
  path relative to the directory, its mtime and an abstract content;
* the archive store is an association list from a zip file name to the
  archive's member list; the persisted `.meta.json` is the list of
  serialized records; all four live in a state record `St`;
* a Python exception that escapes a method is an `Except.error` carrying
  the in-memory state at the moment the exception propagates (mutations
  already performed are visible in it, the final re-persist is not).
-/

/-- A `pathlib` path: absoluteness flag plus components.  The constructor
behaviour of `PurePath` (dropping empty and `"."` components, keeping
`".."`) is in `parsePath`. -/
structure PyPath where
  isAbs : Bool
  comps : List String
deriving DecidableEq, Repr, Inhabited

/-- `str.split` on a one-character separator. -/
def splitOnChar (sep : Char) : List Char → List (List Char)
  | [] => [[]]
  | c :: rest =>
    match splitOnChar sep rest with
    | [] => [[c]]
    | h :: t => if c = sep then [] :: h :: t else (c :: h) :: t

/-- `Path(s)`: split on `/`, drop empty and `"."` components (what the
`PurePath` constructor does); `".."` components are kept. -/
def parsePath (s : String) : PyPath :=
  { isAbs := match s.toList with
             | '/' :: _ => true
             | _ => false
    comps := ((splitOnChar '/' s.toList).map String.mk).filter
      (fun c => !(c == "" || c == ".")) }

/-- `Path.absolute()`: anchor a relative path at the current working
directory; no normalization of `".."` is performed. -/
def pathAbsolute (cwd : PyPath) (p : PyPath) : PyPath :=
  if p.isAbs then p else { isAbs := cwd.isAbs, comps := cwd.comps ++ p.comps }

/-- `str(path)` for a `pathlib` path. -/
def pathStr (p : PyPath) : String :=
  (if p.isAbs then "/" else "") ++ String.intercalate "/" p.comps

/-- Index of the last `'.'` in a file name, if any. -/
def lastDotIdx (cs : List Char) : Option Nat :=
  (List.range cs.length).foldl
    (fun acc i => if cs.getD i ' ' = '.' then some i else acc) none

/-- `PurePath.stem` on one name: strip the suffix, i.e. everything from
the last `'.'` on, provided that dot is neither the first nor the last
character of the name. -/
def stemOfName (name : String) : String :=
  let cs := name.toList
  match lastDotIdx cs with
  | some i => if 0 < i ∧ i + 1 < cs.length then String.mk (cs.take i) else name
  | none => name

/-- `Path.stem`: the stem of the final component (empty for a root path). -/
def pyStem (p : PyPath) : String :=
  match p.comps.getLast? with
  | some name => stemOfName name
  | none => ""

/-- CPython `hash` on an `int`: reduce modulo the Mersenne prime
`2^61 - 1`, preserving the sign, with `-1` mapped to `-2`. -/
def pyHashInt (n : Int) : Int :=
  if 0 ≤ n then n % (2 ^ 61 - 1)
  else
    let h : Int := -((-n) % (2 ^ 61 - 1))
    if h = -1 then -2 else h

/-- One entry of the registry (`class MetaEntry`): source directory,
creation timestamp and informational file count. -/
structure MetaEntry where
  path : PyPath
  timestamp : Int
  file_count : Int
deriving DecidableEq, Repr, Inhabited

/-- `MetaEntry.__hash__`: `abs(hash(self._timestamp))`. -/
def MetaEntry.pyHash (e : MetaEntry) : Nat :=
  (pyHashInt e.timestamp).natAbs

/-- `MetaEntry.id_`: `hex(hash(self))[2:10]`, i.e. the first eight hex
digits (lowercase, no leading zeros) of the absolute hash. -/
def MetaEntry.id_ (e : MetaEntry) : String :=
  String.mk ((Nat.toDigits 16 e.pyHash).take 8)

/-- `MetaEntry.__str__`: `f"{self._path.stem}_{self._timestamp}"`, used
as the archive file name (without the `.zip` extension). -/
def MetaEntry.strRepr (e : MetaEntry) : String :=
  pyStem e.path ++ "_" ++ toString e.timestamp

/-- The archive file name of an entry: `str(meta_entry) + ".zip"`. -/
def zipName (e : MetaEntry) : String :=
  e.strRepr ++ ".zip"

/-- One serialized record of `.meta.json` (the output of
`MetaEntry.to_dict`). -/
structure MetaRecord where
  path : String
  timestamp : Int
  file_count : Int
deriving DecidableEq, Repr

/-- `MetaEntry.to_dict`: the path is converted to a string, the other
fields are stored as they are. -/
def MetaEntry.to_dict (e : MetaEntry) : MetaRecord :=
  { path := pathStr e.path, timestamp := e.timestamp, file_count := e.file_count }

/-- `MetaEntry.__init__` on a loaded record: the path string is turned
back into a `Path`, the other fields are taken as they are. -/
def MetaEntry.ofDict (r : MetaRecord) : MetaEntry :=
  { path := parsePath r.path, timestamp := r.timestamp, file_count := r.file_count }

/-- The sort relation of `_get_backup_chain`: compare entries by their
timestamp (`key=lambda x: x._timestamp`). -/
def tsLe (a b : MetaEntry) : Prop :=
  a.timestamp ≤ b.timestamp

instance : DecidableRel tsLe :=
  fun a b => Int.decLe a.timestamp b.timestamp

instance : IsTotal MetaEntry tsLe :=
  ⟨fun a b => Int.le_total a.timestamp b.timestamp⟩

instance : IsTrans MetaEntry tsLe :=
  ⟨fun _ _ _ h1 h2 => le_trans h1 h2⟩

instance : IsRefl MetaEntry tsLe :=
  ⟨fun a => le_refl a.timestamp⟩

/-- `Metadata._get_backup_chain`: the registry entries whose path equals
the given directory, sorted ascending by timestamp with Python's stable
sort (modelled by the stable `insertionSort`). -/
def _get_backup_chain (entries : List MetaEntry) (bak_dir : PyPath) : List MetaEntry :=
  List.insertionSort tsLe (entries.filter (fun e => e.path == bak_dir))

/-- `Metadata._get_last_backup_ts`: the timestamp of the last element of
the chain, or `0` when the chain is empty. -/
def _get_last_backup_ts (entries : List MetaEntry) (bak_dir : PyPath) : Int :=
  match (_get_backup_chain entries bak_dir).getLast? with
  | some e => e.timestamp
  | none => 0

/-- One regular file found by the recursive scan of a directory: its path
relative to that directory, its mtime, and an abstract content. -/
structure FileInfo where
  rel : String
  mtime : Int
  content : Nat
deriving DecidableEq, Repr, Inhabited

/-- The member list of one zip archive: relative path and content of each
stored file. -/
abbrev Archive := List (String × Nat)

/-- The full state an invocation manipulates: the in-memory registry, the
archive files of the backup directory, the persisted `.meta.json`
content, and the scanned/restored filesystem. -/
structure St where
  entries : List MetaEntry
  archives : List (String × Archive)
  persisted : List MetaRecord
  fs : List (PyPath × List FileInfo)
deriving DecidableEq, Repr

deriving instance DecidableEq for Except

/-- First value bound to a key in an association list. -/
def lookupAssoc {κ ν : Type} [BEq κ] (l : List (κ × ν)) (a : κ) : Option ν :=
  (l.find? (fun p => p.1 == a)).map (fun p => p.2)

/-- Overwrite the value bound to a key, or append a new binding. -/
def setAssoc {κ ν : Type} [BEq κ] (l : List (κ × ν)) (a : κ) (b : ν) : List (κ × ν) :=
  if l.any (fun p => p.1 == a) then
    l.map (fun p => if p.1 == a then (a, b) else p)
  else l ++ [(a, b)]

/-- Drop the first binding of a key (`Path.unlink` on an archive). -/
def eraseAssoc {κ ν : Type} [BEq κ] (l : List (κ × ν)) (a : κ) : List (κ × ν) :=
  l.eraseP (fun p => p.1 == a)

/-- The recursive-scan result for a directory (empty when unknown). -/
def fsLookup (fs : List (PyPath × List FileInfo)) (d : PyPath) : List FileInfo :=
  (lookupAssoc fs d).getD []

/-- `Metadata._get_all_file_paths`: all regular files under the
directory. -/
def _get_all_file_paths (st : St) (bak_dir : PyPath) : List FileInfo :=
  fsLookup st.fs bak_dir

/-- `Metadata._filter_updated_paths`: the scanned files whose mtime is
strictly greater than the last backup timestamp. -/
def _filter_updated_paths (st : St) (bak_dir : PyPath) : List FileInfo :=
  let last_ts := _get_last_backup_ts st.entries bak_dir
  (_get_all_file_paths st bak_dir).filter (fun f => decide (last_ts < f.mtime))

/-- `Metadata._to_json`: rewrite `.meta.json` with the serialized
entries. -/
def _to_json (st : St) : St :=
  { st with persisted := st.entries.map MetaEntry.to_dict }

/-- `Metadata._compress`: write (mode `"w"`, so truncating) the archive
holding the given files at their relative paths. -/
def _compress (st : St) (files : List FileInfo) (name : String) : St :=
  { st with archives := setAssoc st.archives name (files.map (fun f => (f.rel, f.content))) }

/-- The canonicalization `Metadata.backup` applies to each directory
argument: `Path(bak_dir).absolute()`. -/
def canonArg (cwd : PyPath) (raw : String) : PyPath :=
  pathAbsolute cwd (parsePath raw)

/-- One iteration of the loop of `Metadata.backup`: canonicalize the
argument with `Path(...).absolute()`, filter the updated files, and
either create archive + entry and persist, or skip. -/
def backupDir (cwd : PyPath) (st : St) (rawDir : String) (now : Int) : St :=
  let bak_dir := canonArg cwd rawDir
  let files := _filter_updated_paths st bak_dir
  if files.isEmpty then st
  else
    let meta_entry : MetaEntry := { path := bak_dir, timestamp := now, file_count := files.length }
    let st1 := _compress st files (zipName meta_entry)
    let st2 := { st1 with entries := st1.entries ++ [meta_entry] }
    _to_json st2

/-- `Metadata.backup`: process each directory argument in order; `now`
is the `time.time()` value an entry for that directory would get. -/
def backup (cwd : PyPath) (st : St) (jobs : List (String × Int)) : St :=
  jobs.foldl (fun s j => backupDir cwd s j.1 j.2) st

/-- `Metadata._get_bak_meta`: path and timestamp of the first entry
whose id matches. -/
def _get_bak_meta (entries : List MetaEntry) (bak_id : String) : Option (PyPath × Int) :=
  (entries.find? (fun e => e.id_ == bak_id)).map (fun e => (e.path, e.timestamp))

/-- Write one extracted member into a directory's file list, overwriting
an existing file at the same relative path. -/
def setFile (files : List FileInfo) (rel : String) (c : Nat) (now : Int) : List FileInfo :=
  if files.any (fun f => f.rel == rel) then
    files.map (fun f => if f.rel == rel then { rel := rel, mtime := now, content := c } else f)
  else files ++ [{ rel := rel, mtime := now, content := c }]

/-- `ZipFile.extractall` on one directory's file list: write every member
in archive order. -/
def extractArchive (now : Int) (files : List FileInfo) (ar : Archive) : List FileInfo :=
  ar.foldl (fun fs item => setFile fs item.1 item.2 now) files

/-- `Metadata._extract`: open the entry's archive (`none` models the
`FileNotFoundError` when it is missing) and extract it into the
directory recorded in the entry's own `path` field — the method takes no
target-directory parameter. -/
def _extract (now : Int) (st : St) (e : MetaEntry) : Option St :=
  match lookupAssoc st.archives (zipName e) with
  | some ar =>
    some { st with fs := setAssoc st.fs e.path (extractArchive now (fsLookup st.fs e.path) ar) }
  | none => none

/-- The inner loop of `Metadata.restore`: extract the selected entries in
order; an exception aborts with the state reached so far. -/
def extractChain (now : Int) (st : St) : List MetaEntry → Except St St
  | [] => Except.ok st
  | e :: rest =>
    match _extract now st e with
    | some st1 => extractChain now st1 rest
    | none => Except.error st

/-- The chain prefix `restore` selects for a resolved id: entries of the
directory's chain with timestamp at most the target's. -/
def restoreChainOf (entries : List MetaEntry) (dir : PyPath) (ts : Int) : List MetaEntry :=
  (_get_backup_chain entries dir).filter (fun e => decide (e.timestamp ≤ ts))

/-- `Metadata.restore`: per id, resolve it (an unknown id is reported and
skipped), select the chain prefix, and extract it oldest first; an
extraction failure propagates and aborts the remaining ids. -/
def restore (now : Int) (st : St) : List String → Except St St
  | [] => Except.ok st
  | bak_id :: rest =>
    match _get_bak_meta st.entries bak_id with
    | none => restore now st rest
    | some (dir, ts) =>
      match extractChain now st (restoreChainOf st.entries dir ts) with
      | Except.ok st1 => restore now st1 rest
      | Except.error st1 => Except.error st1

/-- `Metadata._find_index_by_id`: index of the first entry whose id
matches. -/
def _find_index_by_id (entries : List MetaEntry) (bak_id : String) : Option Nat :=
  entries.findIdx? (fun e => e.id_ == bak_id)

/-- The unlink loop of the `--all` branch of `Metadata.rm`: unlink the
archive of every entry of the directory; the `unlink` call is not
guarded, so a missing archive raises (`Except.error`, carrying the
archives removed so far). -/
def unlinkChainArchives (dir : PyPath) :
    List MetaEntry → List (String × Archive) →
    Except (List (String × Archive)) (List (String × Archive))
  | [], ars => Except.ok ars
  | e :: rest, ars =>
    if e.path == dir then
      match lookupAssoc ars (zipName e) with
      | some _ => unlinkChainArchives dir rest (eraseAssoc ars (zipName e))
      | none => Except.error ars
    else unlinkChainArchives dir rest ars

/-- The id loop of `Metadata.rm`.  In `--all` mode an unresolvable id is
skipped, and a missing archive aborts the whole call; in single mode the
`unlink` is wrapped in `try/except FileNotFoundError`, so a missing
archive is tolerated and the entry is still deleted. -/
def rmGo (allFlag : Bool) : List String → St → Except St St
  | [], st => Except.ok st
  | bak_id :: rest, st =>
    if allFlag then
      match _get_bak_meta st.entries bak_id with
      | some (dir, _) =>
        match unlinkChainArchives dir st.entries st.archives with
        | Except.ok ars =>
          rmGo allFlag rest
            { st with archives := ars
                      entries := st.entries.filter (fun e => !(e.path == dir)) }
        | Except.error ars => Except.error { st with archives := ars }
      | none => rmGo allFlag rest st
    else
      match _find_index_by_id st.entries bak_id with
      | some i =>
        let rm_entry := st.entries.getD i default
        let ars :=
          match lookupAssoc st.archives (zipName rm_entry) with
          | some _ => eraseAssoc st.archives (zipName rm_entry)
          | none => st.archives
        rmGo allFlag rest { st with archives := ars, entries := st.entries.eraseIdx i }
      | none => rmGo allFlag rest st

/-- `Metadata.rm`: process the ids, then persist once at the end; an
uncaught exception skips the final persist. -/
def rm (st : St) (bak_ids : List String) (allFlag : Bool) : Except St St :=
  match rmGo allFlag bak_ids st with
  | Except.ok st1 => Except.ok (_to_json st1)
  | Except.error st1 => Except.error st1

/-- The three relevant conditions of the state file on disk when
`Metadata.__init__` runs. -/
inductive StateFile where
  | absent : StateFile
  | malformed : StateFile
  | wellFormed : List MetaRecord → StateFile
deriving DecidableEq, Repr

/-- What `Metadata.__init__` leaves behind on success: the loaded
registry, the resulting on-disk state file, and whether the backup
directory was created. -/
structure InitResult where
  entries : List MetaEntry
  stateFile : StateFile
  dirCreated : Bool
deriving DecidableEq, Repr

/-- `Metadata.__init__`: a missing state file is not an error (the backup
directory is created and an empty state file `[]` is written); a file
that fails to parse raises `json.JSONDecodeError`, which nothing
catches (`Except.error`); otherwise every record is turned into a
`MetaEntry`. -/
def metadataInit : StateFile → Except Unit InitResult
  | StateFile.absent =>
    Except.ok { entries := [], stateFile := StateFile.wellFormed [], dirCreated := true }
  | StateFile.malformed => Except.error ()
  | StateFile.wellFormed rs =>
    Except.ok { entries := rs.map MetaEntry.ofDict, stateFile := StateFile.wellFormed rs
                dirCreated := false }

/-- Resolution of `".."` components against their parent, used to state
when two spellings denote the same directory.  Written from the spec's
words ("a spelling containing `.` or `..` segments" denoting the same
directory), for comparison with the code's `pathAbsolute`, which
performs no such resolution. -/
def resolveComps : List String → List String → List String
  | acc, [] => acc
  | acc, c :: rest =>
    if c == ".." then resolveComps acc.dropLast rest
    else resolveComps (acc ++ [c]) rest

/-- A path with its `".."` components resolved: the spec-side meaning of
a directory spelling. -/
def specResolvedPath (p : PyPath) : PyPath :=
  { isAbs := p.isAbs, comps := resolveComps [] p.comps }

/-- The first file of a directory listing at a given relative path (what
an observer of the directory sees there). -/
def lookupRel (files : List FileInfo) (r : String) : Option FileInfo :=
  files.find? (fun f => f.rel == r)

/-- Last-wins accumulation over a list: the value of the last element on
which `f` fires, if any. -/
def lastWins {γ β : Type} (f : γ → Option β) (l : List γ) : Option β :=
  l.foldl (fun acc x => (f x).elim acc some) none

/-- The content the last member of one archive stores at a relative path
(a later member of the same archive overwrites an earlier one). -/
def lastValue (ar : Archive) (r : String) : Option Nat :=
  lastWins (fun item => if item.1 == r then some item.2 else none) ar

/-- The content the last archive of a sequence stores at a relative path
(a later archive overwrites an earlier one). -/
def lastValueList (ars : List Archive) (r : String) : Option Nat :=
  lastWins (fun ar => lastValue ar r) ars

/-- The archive contents a chain of entries refers to, in chain order. -/
def archivesOf (ars : List (String × Archive)) (sel : List MetaEntry) : List Archive :=
  sel.filterMap (fun e => lookupAssoc ars (zipName e))

/-! ### Helper lemmas about chain resolution -/

theorem mem_get_backup_chain {entries : List MetaEntry} {d : PyPath} {e : MetaEntry} :
    e ∈ _get_backup_chain entries d ↔ e ∈ entries ∧ e.path = d := by
  simp [_get_backup_chain, List.mem_insertionSort, List.mem_filter]

theorem sorted_get_backup_chain (entries : List MetaEntry) (d : PyPath) :
    List.Sorted tsLe (_get_backup_chain entries d) :=
  List.sorted_insertionSort tsLe _

theorem perm_get_backup_chain (entries : List MetaEntry) (d : PyPath) :
    List.Perm (_get_backup_chain entries d) (entries.filter (fun e => e.path == d)) :=
  List.perm_insertionSort tsLe _

theorem mem_of_getLast?_eq {α : Type} {l : List α} {x : α} (h : l.getLast? = some x) :
    x ∈ l := by
  obtain ⟨l', rfl⟩ := List.getLast?_eq_some_iff.mp h
  exact List.mem_append_right _ (List.mem_singleton_self x)

theorem sorted_ts_le_getLast {l : List MetaEntry} (hs : List.Sorted tsLe l) {e x : MetaEntry}
    (he : e ∈ l) (hx : l.getLast? = some x) : e.timestamp ≤ x.timestamp := by
  induction l with
  | nil => cases he
  | cons a t ih =>
    cases t with
    | nil =>
      simp only [List.mem_singleton] at he
      simp only [List.getLast?_singleton, Option.some.injEq] at hx
      subst he; subst hx; exact le_refl _
    | cons b t' =>
      rw [List.getLast?_cons_cons] at hx
      rcases List.mem_cons.mp he with rfl | he'
      · exact List.rel_of_sorted_cons hs x (mem_of_getLast?_eq hx)
      · exact ih hs.of_cons he' hx

theorem ts_le_last_backup_ts {entries : List MetaEntry} {d : PyPath} {e : MetaEntry}
    (he : e ∈ entries) (hp : e.path = d) :
    e.timestamp ≤ _get_last_backup_ts entries d := by
  have hmem : e ∈ _get_backup_chain entries d := mem_get_backup_chain.mpr ⟨he, hp⟩
  rcases hx : (_get_backup_chain entries d).getLast? with _ | x
  · exact absurd (List.getLast?_eq_none_iff.mp hx) (List.ne_nil_of_mem hmem)
  · have h1 : _get_last_backup_ts entries d = x.timestamp := by
      simp only [_get_last_backup_ts, hx]
    rw [h1]
    exact sorted_ts_le_getLast (sorted_get_backup_chain entries d) hmem hx

theorem chain_filter_ts (entries : List MetaEntry) (d : PyPath) (t : Int) :
    (_get_backup_chain entries d).filter (fun e => e.timestamp == t)
      = (entries.filter (fun e => e.path == d)).filter (fun e => e.timestamp == t) := by
  have hall : ∀ e ∈ (entries.filter (fun e => e.path == d)).filter
      (fun e => e.timestamp == t), (fun e : MetaEntry => e.timestamp == t) e = true :=
    fun e he => (List.mem_filter.mp he).2
  have hpair : ((entries.filter (fun e => e.path == d)).filter
      (fun e => e.timestamp == t)).Pairwise tsLe := by
    refine List.pairwise_of_forall_mem_list (fun a ha b hb => ?_)
    have ha' : a.timestamp = t := by simpa using (List.mem_filter.mp ha).2
    have hb' : b.timestamp = t := by simpa using (List.mem_filter.mp hb).2
    show a.timestamp ≤ b.timestamp
    rw [ha', hb']
  have hsub : List.Sublist ((entries.filter (fun e => e.path == d)).filter
      (fun e => e.timestamp == t)) (_get_backup_chain entries d) :=
    List.sublist_insertionSort hpair (List.filter_sublist _)
  have hsub2 : List.Sublist ((entries.filter (fun e => e.path == d)).filter
      (fun e => e.timestamp == t))
      ((_get_backup_chain entries d).filter (fun e => e.timestamp == t)) := by
    have h2 := hsub.filter (fun e => e.timestamp == t)
    rwa [List.filter_eq_self.mpr hall] at h2
  have hlen : ((_get_backup_chain entries d).filter (fun e => e.timestamp == t)).length
      = ((entries.filter (fun e => e.path == d)).filter (fun e => e.timestamp == t)).length :=
    ((perm_get_backup_chain entries d).filter _).length_eq
  exact (hsub2.eq_of_length hlen.symm).symm

/-! ### Claim theorems C5, C6, C7 -/

/-- C5: serializing an entry with `to_dict` and rebuilding a `MetaEntry`
from the record yields the same id (and the same persisted fields); the
id is recomputed deterministically from the persisted timestamp, so an
id computed at creation time equals the id recomputed after a reload. -/
theorem id_stable_across_reload (e : MetaEntry) :
    (MetaEntry.ofDict e.to_dict).id_ = e.id_
    ∧ (MetaEntry.ofDict e.to_dict).timestamp = e.timestamp
    ∧ (MetaEntry.ofDict e.to_dict).file_count = e.file_count
    ∧ ∀ r : MetaRecord, (MetaEntry.ofDict r).id_
        = String.mk ((Nat.toDigits 16 (pyHashInt r.timestamp).natAbs).take 8) :=
  ⟨rfl, rfl, rfl, fun _ => rfl⟩

/-- C6 counterexample: the rendered id is not of fixed width — an entry
whose timestamp is `1` gets the one-character id `"1"`, while an entry
whose timestamp is `268435456 = 16^7` gets the eight-character id
`"10000000"`, so two entries can have ids of different lengths. -/
theorem id_width_counterexample :
    ¬ (({ path := parsePath "/tmp/x", timestamp := 1, file_count := 1 : MetaEntry }).id_.length
       = ({ path := parsePath "/tmp/x", timestamp := 268435456, file_count := 1 :
            MetaEntry }).id_.length) := by
  decide

/-- C6 amended: the user-facing id is a short token of AT MOST eight
characters (the slice `[2:10]` of the hex rendering), but not of fixed
width: small hash values give shorter ids. -/
theorem id_width_at_most_eight (e : MetaEntry) : e.id_.length ≤ 8 := by
  show ((Nat.toDigits 16 e.pyHash).take 8).length ≤ 8
  rw [List.length_take]
  exact min_le_left _ _

/-- C7: for every directory and registry state, the chain contains
exactly (as a permutation, and element-wise) the registry entries whose
path equals the directory, is sorted non-decreasing by timestamp, and
entries of equal timestamp retain their relative registry order (the
sort is stable: filtering the chain to one timestamp gives exactly the
registry-ordered sublist). -/
theorem backup_chain_exact_sorted_stable (entries : List MetaEntry) (d : PyPath) :
    (∀ e, e ∈ _get_backup_chain entries d ↔ e ∈ entries ∧ e.path = d)
    ∧ List.Perm (_get_backup_chain entries d) (entries.filter (fun e => e.path == d))
    ∧ List.Sorted tsLe (_get_backup_chain entries d)
    ∧ ∀ t, (_get_backup_chain entries d).filter (fun e => e.timestamp == t)
        = (entries.filter (fun e => e.path == d)).filter (fun e => e.timestamp == t) :=
  ⟨fun _ => mem_get_backup_chain, perm_get_backup_chain entries d,
   sorted_get_backup_chain entries d, chain_filter_ts entries d⟩

/-! ### Helper lemmas about `backupDir` -/

theorem backupDir_noop {cwd : PyPath} {st : St} {rawDir : String} {now : Int}
    (h : _filter_updated_paths st (canonArg cwd rawDir) = []) :
    backupDir cwd st rawDir now = st := by
  simp [backupDir, h]

theorem backupDir_spec {cwd : PyPath} {st : St} {rawDir : String} {now : Int}
    (h : _filter_updated_paths st (canonArg cwd rawDir) ≠ []) :
    backupDir cwd st rawDir now =
      { entries := st.entries ++
          [{ path := canonArg cwd rawDir, timestamp := now,
             file_count := (_filter_updated_paths st (canonArg cwd rawDir)).length }]
        archives := setAssoc st.archives
          (zipName { path := canonArg cwd rawDir, timestamp := now,
                     file_count := (_filter_updated_paths st (canonArg cwd rawDir)).length })
          ((_filter_updated_paths st (canonArg cwd rawDir)).map (fun f => (f.rel, f.content)))
        persisted := (st.entries ++
          [({ path := canonArg cwd rawDir, timestamp := now,
              file_count := (_filter_updated_paths st (canonArg cwd rawDir)).length } :
            MetaEntry)]).map MetaEntry.to_dict
        fs := st.fs } := by
  have h2 : (_filter_updated_paths st (canonArg cwd rawDir)).isEmpty = false := by
    rcases hl : _filter_updated_paths st (canonArg cwd rawDir) with _ | ⟨a, t⟩
    · exact absurd hl h
    · rfl
  simp [backupDir, _compress, _to_json, h2]

/-! ### Claim theorems C1, C9 -/

/-- C1: for a directory passed to `create`, the kept set is exactly the
scanned regular files whose mtime is strictly greater than the last
timestamp of the chain (zero when the chain is empty); an empty kept set
means the state — entries, archives, persisted registry — is unchanged;
consequently, when every file mtime is at most the first run's clock
(an unchanged directory), a second `create` run is a no-op. -/
theorem create_keeps_updated_and_is_idempotent
    (cwd : PyPath) (st : St) (rawDir : String) (now now2 : Int)
    (hmt : ∀ f ∈ _get_all_file_paths st (canonArg cwd rawDir), f.mtime ≤ now) :
    (_filter_updated_paths st (canonArg cwd rawDir)
       = (_get_all_file_paths st (canonArg cwd rawDir)).filter
           (fun f => decide (_get_last_backup_ts st.entries (canonArg cwd rawDir) < f.mtime)))
    ∧ (_get_backup_chain st.entries (canonArg cwd rawDir) = [] →
        _get_last_backup_ts st.entries (canonArg cwd rawDir) = 0)
    ∧ (_filter_updated_paths st (canonArg cwd rawDir) = [] →
        backupDir cwd st rawDir now = st)
    ∧ backupDir cwd (backupDir cwd st rawDir now) rawDir now2 = backupDir cwd st rawDir now := by
  refine ⟨rfl, ?_, fun h => backupDir_noop h, ?_⟩
  · intro h
    simp [_get_last_backup_ts, h]
  · by_cases h : _filter_updated_paths st (canonArg cwd rawDir) = []
    · rw [backupDir_noop h]
      exact backupDir_noop h
    · have hspec := @backupDir_spec cwd st rawDir now h
      apply backupDir_noop
      have hfs : (backupDir cwd st rawDir now).fs = st.fs := by rw [hspec]
      have hne :
          ({ path := canonArg cwd rawDir, timestamp := now,
             file_count := (_filter_updated_paths st (canonArg cwd rawDir)).length } :
            MetaEntry) ∈ (backupDir cwd st rawDir now).entries := by
        rw [hspec]
        simp
      have hlast : now ≤ _get_last_backup_ts (backupDir cwd st rawDir now).entries
          (canonArg cwd rawDir) := ts_le_last_backup_ts hne rfl
      show (_get_all_file_paths (backupDir cwd st rawDir now) (canonArg cwd rawDir)).filter
          (fun f => decide (_get_last_backup_ts (backupDir cwd st rawDir now).entries
            (canonArg cwd rawDir) < f.mtime)) = []
      rw [List.filter_eq_nil_iff]
      intro f hf
      have hf' : f ∈ _get_all_file_paths st (canonArg cwd rawDir) := by
        simpa [_get_all_file_paths, hfs] using hf
      have h1 : f.mtime ≤ now := hmt f hf'
      simp only [decide_eq_true_eq, not_lt]
      exact le_trans h1 hlast

/-- C1 witness: a fresh directory with one file of mtime `3`; backing it
up at time `10` and again at time `11` changes nothing the second
time. -/
theorem create_idempotent_witness :
    (∀ f ∈ _get_all_file_paths
        { entries := [], archives := [], persisted := [],
          fs := [(parsePath "/d", [{ rel := "f", mtime := 3, content := 1 }])] }
        (canonArg (parsePath "/h") "/d"), f.mtime ≤ 10)
    ∧ backupDir (parsePath "/h")
        (backupDir (parsePath "/h")
          { entries := [], archives := [], persisted := [],
            fs := [(parsePath "/d", [{ rel := "f", mtime := 3, content := 1 }])] } "/d" 10)
        "/d" 11
      = backupDir (parsePath "/h")
          { entries := [], archives := [], persisted := [],
            fs := [(parsePath "/d", [{ rel := "f", mtime := 3, content := 1 }])] } "/d" 10 :=
  ⟨by decide,
   (create_keeps_updated_and_is_idempotent (parsePath "/h")
      { entries := [], archives := [], persisted := [],
        fs := [(parsePath "/d", [{ rel := "f", mtime := 3, content := 1 }])] }
      "/d" 10 11 (by decide)).2.2.2⟩

/-- C9 counterexample: `Path("/tmp/a/../x").absolute()` and
`Path("/tmp/x").absolute()` denote the same directory once `".."` is
resolved, yet `create` assigns them different (here: disjoint) chains,
because `Path.absolute()` performs no `".."` normalization. -/
theorem canon_dotdot_counterexample :
    specResolvedPath (canonArg (parsePath "/h") "/tmp/a/../x")
      = specResolvedPath (canonArg (parsePath "/h") "/tmp/x")
    ∧ canonArg (parsePath "/h") "/tmp/a/../x" ≠ canonArg (parsePath "/h") "/tmp/x"
    ∧ _get_backup_chain [{ path := parsePath "/tmp/x", timestamp := 1, file_count := 1 }]
        (canonArg (parsePath "/h") "/tmp/a/../x") = []
    ∧ _get_backup_chain [{ path := parsePath "/tmp/x", timestamp := 1, file_count := 1 }]
        (canonArg (parsePath "/h") "/tmp/x")
      = [{ path := parsePath "/tmp/x", timestamp := 1, file_count := 1 }] := by
  decide

/-- C9 amended: `create` canonicalizes each argument only by anchoring a
relative spelling at the current working directory and dropping `"."`
(and empty) segments — `".."` segments are NOT resolved — and two
entries belong to the same chain iff their resulting path values are
exactly equal. -/
theorem canon_anchors_and_chains_by_equality
    (cwd : PyPath) (raw : String) (entries : List MetaEntry) (d : PyPath) :
    ((parsePath raw).isAbs = false →
        canonArg cwd raw = { isAbs := cwd.isAbs, comps := cwd.comps ++ (parsePath raw).comps })
    ∧ ((parsePath raw).isAbs = true → canonArg cwd raw = parsePath raw)
    ∧ ("" ∉ (parsePath raw).comps ∧ "." ∉ (parsePath raw).comps)
    ∧ (∀ e, e ∈ _get_backup_chain entries d ↔ e ∈ entries ∧ e.path = d) := by
  refine ⟨?_, ?_, ⟨?_, ?_⟩, fun _ => mem_get_backup_chain⟩
  · intro h
    simp [canonArg, pathAbsolute, h]
  · intro h
    simp [canonArg, pathAbsolute, h]
  · intro hmem
    have h2 := (List.mem_filter.mp hmem).2
    simp at h2
  · intro hmem
    have h2 := (List.mem_filter.mp hmem).2
    simp at h2

/-- C9 amended, witness: a relative argument `"x"` is anchored at the
working directory `/h`. -/
theorem canon_anchors_witness :
    (parsePath "x").isAbs = false
    ∧ canonArg (parsePath "/h") "x"
      = { isAbs := (parsePath "/h").isAbs
          comps := (parsePath "/h").comps ++ (parsePath "x").comps } :=
  ⟨by decide,
   (canon_anchors_and_chains_by_equality (parsePath "/h") "x" [] (parsePath "/h")).1 (by decide)⟩

/-! ### Helper lemmas about association lists and last-wins folds -/

theorem lastWins_foldl_init {γ β : Type} (f : γ → Option β) :
    ∀ (t : List γ) (a : Option β),
      t.foldl (fun acc x => (f x).elim acc some) a
        = match t.foldl (fun acc x => (f x).elim acc some) none with
          | some c => some c
          | none => a := by
  intro t
  induction t with
  | nil => intro a; rfl
  | cons x t ih =>
    intro a
    simp only [List.foldl_cons]
    rw [ih ((f x).elim a some), ih ((f x).elim none some)]
    cases t.foldl (fun acc x => (f x).elim acc some) none with
    | some c => rfl
    | none => cases f x with
      | some y => rfl
      | none => rfl

theorem lastWins_cons {γ β : Type} (f : γ → Option β) (x : γ) (t : List γ) :
    lastWins f (x :: t)
      = match lastWins f t with
        | some c => some c
        | none => f x := by
  unfold lastWins
  simp only [List.foldl_cons]
  rw [lastWins_foldl_init f t ((f x).elim none some)]
  cases t.foldl (fun acc x => (f x).elim acc some) none with
  | some c => rfl
  | none => cases f x with
    | some y => rfl
    | none => rfl

theorem lookupAssoc_nil {κ ν : Type} [BEq κ] (a : κ) :
    lookupAssoc ([] : List (κ × ν)) a = none := rfl

theorem lookupAssoc_cons {κ ν : Type} [BEq κ] (p : κ × ν) (t : List (κ × ν)) (a : κ) :
    lookupAssoc (p :: t) a = if p.1 == a then some p.2 else lookupAssoc t a := by
  unfold lookupAssoc
  rw [List.find?_cons]
  cases h : (p.1 == a) <;> simp [h]

theorem lookupAssoc_map_set {κ ν : Type} [BEq κ] [LawfulBEq κ]
    (l : List (κ × ν)) (a : κ) (b : ν) (a' : κ) :
    lookupAssoc (l.map (fun p => if p.1 == a then (a, b) else p)) a'
      = if a == a'
        then ((lookupAssoc l a).map (fun _ => b))
        else lookupAssoc l a' := by
  induction l with
  | nil => cases h : (a == a') <;> simp [h, lookupAssoc]
  | cons p t ih =>
    obtain ⟨k, v⟩ := p
    rw [List.map_cons]
    by_cases hk : k = a
    · subst hk
      cases ha : (k == a') <;>
        simp [lookupAssoc_cons, ha, ih, beq_self_eq_true]
    · have hk' : (k == a) = false := beq_eq_false_iff_ne.mpr hk
      by_cases ha : a = a'
      · subst ha
        simp [hk', lookupAssoc_cons, ih, beq_self_eq_true]
      · have ha' : (a == a') = false := beq_eq_false_iff_ne.mpr ha
        simp only [hk', if_false, Bool.false_eq_true, lookupAssoc_cons, ha', ih]

theorem lookupAssoc_append_single {κ ν : Type} [BEq κ]
    (l : List (κ × ν)) (a : κ) (b : ν) (a' : κ) :
    lookupAssoc (l ++ [(a, b)]) a'
      = match lookupAssoc l a' with
        | some v => some v
        | none => if a == a' then some b else none := by
  induction l with
  | nil =>
    simp only [List.nil_append, lookupAssoc_nil]
    rw [lookupAssoc_cons]
    cases h : (a == a') <;> simp [h, lookupAssoc_nil]
  | cons p t ih =>
    rw [List.cons_append, lookupAssoc_cons, lookupAssoc_cons]
    cases hp : (p.1 == a') <;> simp [hp, ih]

theorem lookupAssoc_eq_none_of_any_false {κ ν : Type} [BEq κ]
    (l : List (κ × ν)) (a : κ) (h : (l.any (fun p => p.1 == a)) = false) :
    lookupAssoc l a = none := by
  unfold lookupAssoc
  have h2 : l.find? (fun p => p.1 == a) = none := by
    rw [List.find?_eq_none]
    intro x hx
    simp only [List.any_eq_false] at h
    exact fun hc => (h x hx) hc
  rw [h2]
  rfl

theorem lookupAssoc_setAssoc {κ ν : Type} [BEq κ] [LawfulBEq κ]
    (l : List (κ × ν)) (a : κ) (b : ν) (a' : κ) :
    lookupAssoc (setAssoc l a b) a' = if a == a' then some b else lookupAssoc l a' := by
  unfold setAssoc
  by_cases hany : (l.any (fun p => p.1 == a)) = true
  · rw [if_pos hany, lookupAssoc_map_set]
    cases ha : (a == a')
    · simp
    · simp only [if_pos]
      have hex : ∃ p ∈ l, (p.1 == a) = true := List.any_eq_true.mp hany
      obtain ⟨p, hp, hpa⟩ := hex
      cases hl : lookupAssoc l a with
      | some v => simp
      | none =>
        exfalso
        have h2 : l.find? (fun p => p.1 == a) = none := by
          unfold lookupAssoc at hl
          cases hf : l.find? (fun p => p.1 == a) with
          | some q => rw [hf] at hl; cases hl
          | none => rfl
        exact absurd hpa ((List.find?_eq_none.mp h2) p hp)
  · have hany' : (l.any (fun p => p.1 == a)) = false := by
      cases h : (l.any (fun p => p.1 == a))
      · rfl
      · exact absurd h hany
    rw [if_neg hany, lookupAssoc_append_single]
    have hnone : lookupAssoc l a = none := lookupAssoc_eq_none_of_any_false l a hany'
    by_cases ha : a = a'
    · subst ha
      rw [hnone]
    · have ha' : (a == a') = false := beq_eq_false_iff_ne.mpr ha
      rw [ha']
      simp only [Bool.false_eq_true, if_false]
      cases hl : lookupAssoc l a' <;> simp [ha']

theorem fsLookup_setAssoc (fs : List (PyPath × List FileInfo)) (d : PyPath)
    (files : List FileInfo) (D : PyPath) :
    fsLookup (setAssoc fs d files) D = if d = D then files else fsLookup fs D := by
  unfold fsLookup
  rw [lookupAssoc_setAssoc]
  by_cases h : d = D
  · simp [h]
  · have h2 : (d == D) = false := beq_eq_false_iff_ne.mpr h
    simp [h2, h]

/-! ### Helper lemmas about extraction -/

theorem lookupRel_nil (r : String) : lookupRel [] r = none := rfl

theorem lookupRel_cons (f : FileInfo) (t : List FileInfo) (r : String) :
    lookupRel (f :: t) r = if f.rel == r then some f else lookupRel t r := by
  unfold lookupRel
  rw [List.find?_cons]
  cases h : (f.rel == r) <;> simp [h]

theorem lookupRel_map_set (files : List FileInfo) (rel : String) (c : Nat) (now : Int)
    (r : String) :
    lookupRel (files.map
        (fun f => if f.rel == rel then { rel := rel, mtime := now, content := c } else f)) r
      = if rel == r
        then ((lookupRel files rel).map
          (fun _ => ({ rel := rel, mtime := now, content := c } : FileInfo)))
        else lookupRel files r := by
  induction files with
  | nil => cases h : (rel == r) <;> simp [h, lookupRel_nil]
  | cons f t ih =>
    obtain ⟨fr, fm, fc⟩ := f
    rw [List.map_cons]
    by_cases hk : fr = rel
    · subst hk
      cases ha : (fr == r) with
      | true =>
        have har : fr = r := eq_of_beq ha
        subst har
        simp [lookupRel_cons, beq_self_eq_true]
      | false =>
        simp only [beq_self_eq_true, if_true, lookupRel_cons, ha, Bool.false_eq_true,
          if_false]
        rw [ih]
        simp [ha]
    · have hk' : (fr == rel) = false := beq_eq_false_iff_ne.mpr hk
      by_cases ha : rel = r
      · subst ha
        simp only [hk', Bool.false_eq_true, if_false, lookupRel_cons, beq_self_eq_true,
          if_true]
        rw [ih]
        simp only [beq_self_eq_true, if_true, hk', Bool.false_eq_true, if_false]
      · have ha' : (rel == r) = false := beq_eq_false_iff_ne.mpr ha
        simp only [hk', if_false, Bool.false_eq_true, lookupRel_cons, ha', ih]

theorem lookupRel_append_single (files : List FileInfo) (new : FileInfo) (r : String) :
    lookupRel (files ++ [new]) r
      = match lookupRel files r with
        | some v => some v
        | none => if new.rel == r then some new else none := by
  induction files with
  | nil =>
    simp only [List.nil_append, lookupRel_nil]
    rw [lookupRel_cons]
    cases h : (new.rel == r) <;> simp [h, lookupRel_nil]
  | cons f t ih =>
    rw [List.cons_append, lookupRel_cons, lookupRel_cons]
    cases hp : (f.rel == r) <;> simp [hp, ih]

theorem lookupRel_eq_none_of_any_false (files : List FileInfo) (rel : String)
    (h : (files.any (fun f => f.rel == rel)) = false) :
    lookupRel files rel = none := by
  unfold lookupRel
  have h2 : files.find? (fun f => f.rel == rel) = none := by
    rw [List.find?_eq_none]
    intro x hx
    simp only [List.any_eq_false] at h
    exact fun hc => (h x hx) hc
  rw [h2]

theorem lookupRel_setFile (files : List FileInfo) (rel : String) (c : Nat) (now : Int)
    (r : String) :
    lookupRel (setFile files rel c now) r
      = if rel == r
        then some { rel := rel, mtime := now, content := c }
        else lookupRel files r := by
  unfold setFile
  by_cases hany : (files.any (fun f => f.rel == rel)) = true
  · rw [if_pos hany, lookupRel_map_set]
    cases ha : (rel == r)
    · simp
    · simp only [if_pos]
      have hex : ∃ f ∈ files, (f.rel == rel) = true := List.any_eq_true.mp hany
      obtain ⟨f, hf, hfr⟩ := hex
      cases hl : lookupRel files rel with
      | some v => simp
      | none =>
        exfalso
        have h2 : files.find? (fun f => f.rel == rel) = none := by
          unfold lookupRel at hl
          exact hl
        exact absurd hfr ((List.find?_eq_none.mp h2) f hf)
  · have hany' : (files.any (fun f => f.rel == rel)) = false := by
      cases h : (files.any (fun f => f.rel == rel))
      · rfl
      · exact absurd h hany
    rw [if_neg hany, lookupRel_append_single]
    have hnone : lookupRel files rel = none := lookupRel_eq_none_of_any_false files rel hany'
    by_cases ha : rel = r
    · subst ha
      rw [hnone]
    · have ha' : (rel == r) = false := beq_eq_false_iff_ne.mpr ha
      rw [ha']
      simp only [Bool.false_eq_true, if_false]
      cases hl : lookupRel files r <;> simp [ha']

theorem lookupRel_extractArchive (now : Int) :
    ∀ (ar : Archive) (files : List FileInfo) (r : String),
      lookupRel (extractArchive now files ar) r
        = match lastValue ar r with
          | some c => some { rel := r, mtime := now, content := c }
          | none => lookupRel files r := by
  intro ar
  induction ar with
  | nil => intro files r; rfl
  | cons item t ih =>
    intro files r
    obtain ⟨k, v⟩ := item
    have hstep : extractArchive now files ((k, v) :: t)
        = extractArchive now (setFile files k v now) t := rfl
    rw [hstep, ih]
    have hlv : lastValue ((k, v) :: t) r
        = match lastValue t r with
          | some c => some c
          | none => if k == r then some v else none := by
      unfold lastValue
      rw [lastWins_cons]
      cases lastWins (fun item => if item.1 == r then some item.2 else none) t <;> rfl
    rw [hlv]
    cases hlt : lastValue t r with
    | some c => rfl
    | none =>
      rw [lookupRel_setFile]
      cases hr : (k == r) with
      | true =>
        have : k = r := eq_of_beq hr
        subst this
        rfl
      | false => rfl

theorem lookupRel_extract_fold (now : Int) :
    ∀ (ars : List Archive) (files : List FileInfo) (r : String),
      lookupRel (ars.foldl (extractArchive now) files) r
        = match lastValueList ars r with
          | some c => some { rel := r, mtime := now, content := c }
          | none => lookupRel files r := by
  intro ars
  induction ars with
  | nil => intro files r; rfl
  | cons ar t ih =>
    intro files r
    rw [List.foldl_cons, ih]
    have hlv : lastValueList (ar :: t) r
        = match lastValueList t r with
          | some c => some c
          | none => lastValue ar r := by
      unfold lastValueList
      rw [lastWins_cons]
      cases lastWins (fun a => lastValue a r) t <;> rfl
    rw [hlv]
    cases hlt : lastValueList t r with
    | some c => rfl
    | none =>
      rw [lookupRel_extractArchive]

theorem extractChain_ok (now : Int) (dir : PyPath) :
    ∀ (sel : List MetaEntry) (st : St),
      (∀ e ∈ sel, e.path = dir) →
      (∀ e ∈ sel, (lookupAssoc st.archives (zipName e)).isSome = true) →
      ∃ st1, extractChain now st sel = Except.ok st1
        ∧ st1.entries = st.entries ∧ st1.archives = st.archives
        ∧ st1.persisted = st.persisted
        ∧ (∀ D, D ≠ dir → fsLookup st1.fs D = fsLookup st.fs D)
        ∧ fsLookup st1.fs dir
            = (archivesOf st.archives sel).foldl (extractArchive now) (fsLookup st.fs dir) := by
  intro sel
  induction sel with
  | nil =>
    intro st _ _
    exact ⟨st, rfl, rfl, rfl, rfl, fun D _ => rfl, rfl⟩
  | cons e t ih =>
    intro st hpath hpres
    have hpe : e.path = dir := hpath e (List.mem_cons_self e t)
    cases har : lookupAssoc st.archives (zipName e) with
    | none =>
      exfalso
      have h2 := hpres e (List.mem_cons_self e t)
      rw [har] at h2
      cases h2
    | some ar =>
      have hstep : extractChain now st (e :: t)
          = extractChain now
            { st with fs := setAssoc st.fs e.path (extractArchive now (fsLookup st.fs e.path) ar) } t := by
        show (match _extract now st e with
              | some st1 => extractChain now st1 t
              | none => Except.error st) = _
        unfold _extract
        rw [har]
      obtain ⟨st2, hok, hent, harch, hpers, hother, hdir⟩ :=
        ih { st with fs := setAssoc st.fs e.path (extractArchive now (fsLookup st.fs e.path) ar) }
          (fun e' he' => hpath e' (List.mem_cons_of_mem e he'))
          (fun e' he' => hpres e' (List.mem_cons_of_mem e he'))
      refine ⟨st2, ?_, hent, harch, hpers, ?_, ?_⟩
      · rw [hstep]
        exact hok
      · intro D hD
        rw [hother D hD]
        show fsLookup (setAssoc st.fs e.path _) D = _
        rw [fsLookup_setAssoc, hpe, if_neg (fun hc => hD hc.symm)]
      · rw [hdir]
        have h1 : fsLookup (setAssoc st.fs e.path
              (extractArchive now (fsLookup st.fs e.path) ar)) dir
            = extractArchive now (fsLookup st.fs dir) ar := by
          rw [fsLookup_setAssoc, hpe, if_pos rfl]
        have h2 : archivesOf st.archives (e :: t) = ar :: archivesOf st.archives t := by
          unfold archivesOf
          rw [List.filterMap_cons, har]
        show (archivesOf st.archives t).foldl (extractArchive now) _ = _
        rw [h1, h2, List.foldl_cons]

theorem mem_restoreChainOf {entries : List MetaEntry} {dir : PyPath} {ts : Int}
    {e : MetaEntry} :
    e ∈ restoreChainOf entries dir ts ↔ e ∈ entries ∧ e.path = dir ∧ e.timestamp ≤ ts := by
  unfold restoreChainOf
  rw [List.mem_filter, mem_get_backup_chain]
  simp [and_assoc]

theorem restore_single (now : Int) (st : St) (bak_id : String) (dir : PyPath) (ts : Int)
    (hmeta : _get_bak_meta st.entries bak_id = some (dir, ts)) :
    restore now st [bak_id]
      = match extractChain now st (restoreChainOf st.entries dir ts) with
        | Except.ok st1 => Except.ok st1
        | Except.error st1 => Except.error st1 := by
  show (match _get_bak_meta st.entries bak_id with
        | none => restore now st []
        | some (dir, ts) =>
          match extractChain now st (restoreChainOf st.entries dir ts) with
          | Except.ok st1 => restore now st1 []
          | Except.error st1 => Except.error st1) = _
  rw [hmeta]
  show (match extractChain now st (restoreChainOf st.entries dir ts) with
        | Except.ok st1 => restore now st1 []
        | Except.error st1 => Except.error st1) = _
  cases extractChain now st (restoreChainOf st.entries dir ts) <;> rfl

/-! ### Claim theorems C4, C10 -/

/-- C4: an id matching no entry is reported and the next id is processed;
an id resolving to `(dir, ts)` selects exactly the entries of `dir`'s
chain with timestamp at most `ts`, in ascending timestamp order, and
extracts one archive per selected entry in that order, so the content an
observer finds at a relative path afterwards is the one stored by the
LAST selected archive containing that path (a later snapshot overwrites
an earlier one), and paths in no selected archive keep their previous
content. -/
theorem restore_extracts_chain_upto_target (now : Int) (st : St) (bak_id : String)
    (rest : List String) :
    (_get_bak_meta st.entries bak_id = none →
        restore now st (bak_id :: rest) = restore now st rest)
    ∧ ∀ dir ts, _get_bak_meta st.entries bak_id = some (dir, ts) →
        (∀ e, e ∈ restoreChainOf st.entries dir ts ↔
            e ∈ st.entries ∧ e.path = dir ∧ e.timestamp ≤ ts)
        ∧ List.Sorted tsLe (restoreChainOf st.entries dir ts)
        ∧ ((∀ e ∈ restoreChainOf st.entries dir ts,
              (lookupAssoc st.archives (zipName e)).isSome = true) →
            ∃ st1, restore now st [bak_id] = Except.ok st1
              ∧ st1.entries = st.entries ∧ st1.archives = st.archives
              ∧ st1.persisted = st.persisted
              ∧ ∀ r, lookupRel (fsLookup st1.fs dir) r
                  = match lastValueList
                      (archivesOf st.archives (restoreChainOf st.entries dir ts)) r with
                    | some c => some { rel := r, mtime := now, content := c }
                    | none => lookupRel (fsLookup st.fs dir) r) := by
  constructor
  · intro h
    simp only [restore, h]
  · intro dir ts hmeta
    refine ⟨fun e => mem_restoreChainOf,
      (sorted_get_backup_chain st.entries dir).filter _, ?_⟩
    intro hpres
    have hpath : ∀ e ∈ restoreChainOf st.entries dir ts, e.path = dir :=
      fun e he => (mem_restoreChainOf.mp he).2.1
    obtain ⟨st1, hok, hent, harch, hpers, hother, hdir⟩ :=
      extractChain_ok now dir (restoreChainOf st.entries dir ts) st hpath hpres
    refine ⟨st1, ?_, hent, harch, hpers, ?_⟩
    · rw [restore_single now st bak_id dir ts hmeta, hok]
    · intro r
      rw [hdir, lookupRel_extract_fold]

/-- C4 witness: one entry with timestamp `5` (id `"5"`) whose archive is
present; restoring it succeeds and leaves the registry unchanged. -/
theorem restore_extracts_chain_upto_target_witness :
    ∃ st1, restore 100
        { entries := [{ path := parsePath "/d", timestamp := 5, file_count := 1 }],
          archives := [("d_5.zip", [("f", 1)])], persisted := [], fs := [] } ["5"]
      = Except.ok st1
      ∧ st1.entries
        = [{ path := parsePath "/d", timestamp := 5, file_count := 1 }] := by
  obtain ⟨st1, hok, hent, _⟩ :=
    ((restore_extracts_chain_upto_target 100
        { entries := [{ path := parsePath "/d", timestamp := 5, file_count := 1 }],
          archives := [("d_5.zip", [("f", 1)])], persisted := [], fs := [] } "5" []).2
      (parsePath "/d") 5 (by decide)).2.2 (by decide)
  exact ⟨st1, hok, hent⟩

/-- C10: each selected archive is extracted into the directory recorded
in its entry's own `path` field (the embedded `restore` takes no
target-directory parameter, mirroring the source): every other directory
is untouched, and a relative path present under the target directory but
absent from every extracted archive keeps its previous content. -/
theorem restore_targets_recorded_directory (now : Int) (st : St) (bak_id : String)
    (dir : PyPath) (ts : Int)
    (hmeta : _get_bak_meta st.entries bak_id = some (dir, ts))
    (hpres : ∀ e ∈ restoreChainOf st.entries dir ts,
      (lookupAssoc st.archives (zipName e)).isSome = true) :
    ∃ st1, restore now st [bak_id] = Except.ok st1
      ∧ (∀ D, D ≠ dir → fsLookup st1.fs D = fsLookup st.fs D)
      ∧ ∀ r, lastValueList (archivesOf st.archives (restoreChainOf st.entries dir ts)) r
            = none →
          lookupRel (fsLookup st1.fs dir) r = lookupRel (fsLookup st.fs dir) r := by
  have hpath : ∀ e ∈ restoreChainOf st.entries dir ts, e.path = dir :=
    fun e he => (mem_restoreChainOf.mp he).2.1
  obtain ⟨st1, hok, hent, harch, hpers, hother, hdir⟩ :=
    extractChain_ok now dir (restoreChainOf st.entries dir ts) st hpath hpres
  refine ⟨st1, ?_, hother, ?_⟩
  · rw [restore_single now st bak_id dir ts hmeta, hok]
  · intro r hnone
    rw [hdir, lookupRel_extract_fold, hnone]

/-- C10 witness: restoring id `"5"` into `/d` leaves the unrelated
directory `/e` and the never-archived file `g` under `/d` untouched. -/
theorem restore_targets_recorded_directory_witness :
    ∃ st1, restore 100
        { entries := [{ path := parsePath "/d", timestamp := 5, file_count := 1 }],
          archives := [("d_5.zip", [("f", 1)])], persisted := [],
          fs := [(parsePath "/d", [{ rel := "g", mtime := 0, content := 9 }]),
                 (parsePath "/e", [{ rel := "h", mtime := 0, content := 3 }])] } ["5"]
      = Except.ok st1
      ∧ fsLookup st1.fs (parsePath "/e")
        = [{ rel := "h", mtime := 0, content := 3 }]
      ∧ lookupRel (fsLookup st1.fs (parsePath "/d")) "g"
        = some { rel := "g", mtime := 0, content := 9 } := by
  obtain ⟨st1, hok, hother, huntouched⟩ :=
    restore_targets_recorded_directory 100
      { entries := [{ path := parsePath "/d", timestamp := 5, file_count := 1 }],
        archives := [("d_5.zip", [("f", 1)])], persisted := [],
        fs := [(parsePath "/d", [{ rel := "g", mtime := 0, content := 9 }]),
               (parsePath "/e", [{ rel := "h", mtime := 0, content := 3 }])] }
      "5" (parsePath "/d") 5 (by decide) (by decide)
  refine ⟨st1, hok, ?_, ?_⟩
  · rw [hother (parsePath "/e") (by decide)]
    decide
  · rw [huntouched "g" (by decide)]
    decide

/-! ### Helper lemmas about `rm` -/

theorem find_index_none_of_meta_none (entries : List MetaEntry) (bak_id : String)
    (h : _get_bak_meta entries bak_id = none) :
    _find_index_by_id entries bak_id = none := by
  unfold _get_bak_meta at h
  have hf : entries.find? (fun e => e.id_ == bak_id) = none := by
    cases hx : entries.find? (fun e => e.id_ == bak_id) with
    | some e => rw [hx] at h; cases h
    | none => rfl
  have hall := List.find?_eq_none.mp hf
  unfold _find_index_by_id
  rw [List.findIdx?_eq_none_iff]
  intro x hx
  cases hp : (x.id_ == bak_id)
  · rfl
  · exact absurd hp (by simpa using hall x hx)

theorem rmGo_false_ok : ∀ (ids : List String) (st : St),
    ∃ st1, rmGo false ids st = Except.ok st1 := by
  intro ids
  induction ids with
  | nil => intro st; exact ⟨st, rfl⟩
  | cons bak_id rest ih =>
    intro st
    cases hidx : _find_index_by_id st.entries bak_id with
    | some i =>
      simp only [rmGo, hidx]
      exact ih _
    | none =>
      simp only [rmGo, hidx]
      exact ih st

/-! ### Claim theorems C3, C2 -/

/-- C3 counterexample: with entries for `/a` (timestamp 1, id `"1"`) and
`/b` (timestamp 2, id `"2"`) but only `/b`'s archive on disk, the batch
`restore ["1", "2"]` aborts on the I/O failure (missing archive) of the
first id with the state unchanged — id `"2"` is never processed — even
though `restore ["2"]` alone succeeds and changes the filesystem. -/
theorem restore_abort_counterexample :
    restore 100
        { entries := [{ path := parsePath "/a", timestamp := 1, file_count := 1 },
                      { path := parsePath "/b", timestamp := 2, file_count := 1 }],
          archives := [("b_2.zip", [("f", 7)])], persisted := [], fs := [] }
        ["1", "2"]
      = Except.error
        { entries := [{ path := parsePath "/a", timestamp := 1, file_count := 1 },
                      { path := parsePath "/b", timestamp := 2, file_count := 1 }],
          archives := [("b_2.zip", [("f", 7)])], persisted := [], fs := [] }
    ∧ (restore 100
        { entries := [{ path := parsePath "/a", timestamp := 1, file_count := 1 },
                      { path := parsePath "/b", timestamp := 2, file_count := 1 }],
          archives := [("b_2.zip", [("f", 7)])], persisted := [], fs := [] }
        ["2"]).isOk = true
    ∧ restore 100
        { entries := [{ path := parsePath "/a", timestamp := 1, file_count := 1 },
                      { path := parsePath "/b", timestamp := 2, file_count := 1 }],
          archives := [("b_2.zip", [("f", 7)])], persisted := [], fs := [] }
        ["2"]
      ≠ Except.ok
        { entries := [{ path := parsePath "/a", timestamp := 1, file_count := 1 },
                      { path := parsePath "/b", timestamp := 2, file_count := 1 }],
          archives := [("b_2.zip", [("f", 7)])], persisted := [], fs := [] } := by
  decide

/-- C3 amended: only id-resolution failures are caught and skipped — an
unresolvable id lets the remaining batch items run, in `restore` and in
`rm` (both modes) — while an I/O failure during extraction propagates
and aborts the remaining items of the batch. -/
theorem batch_skips_unresolvable_but_io_failure_aborts (now : Int) (st : St)
    (bak_id : String) (rest : List String) (allFlag : Bool) :
    (_get_bak_meta st.entries bak_id = none →
        restore now st (bak_id :: rest) = restore now st rest
        ∧ rm st (bak_id :: rest) allFlag = rm st rest allFlag)
    ∧ (∀ dir ts st1, _get_bak_meta st.entries bak_id = some (dir, ts) →
        extractChain now st (restoreChainOf st.entries dir ts) = Except.error st1 →
        restore now st (bak_id :: rest) = Except.error st1) := by
  constructor
  · intro h
    constructor
    · simp only [restore, h]
    · have hidx : _find_index_by_id st.entries bak_id = none :=
        find_index_none_of_meta_none st.entries bak_id h
      have hgo : rmGo allFlag (bak_id :: rest) st = rmGo allFlag rest st := by
        cases allFlag <;> simp [rmGo, h, hidx]
      unfold rm
      rw [hgo]
  · intro dir ts st1 hmeta hext
    show (match _get_bak_meta st.entries bak_id with
          | none => restore now st rest
          | some (dir, ts) =>
            match extractChain now st (restoreChainOf st.entries dir ts) with
            | Except.ok st2 => restore now st2 rest
            | Except.error st2 => Except.error st2) = Except.error st1
    rw [hmeta]
    show (match extractChain now st (restoreChainOf st.entries dir ts) with
          | Except.ok st2 => restore now st2 rest
          | Except.error st2 => Except.error st2) = Except.error st1
    rw [hext]

/-- C3 amended, witness: an id (`"zz"`) matching no entry is skipped and
the rest of the batch still runs. -/
theorem batch_skips_unresolvable_witness :
    _get_bak_meta
        ({ entries := [{ path := parsePath "/a", timestamp := 1, file_count := 1 }],
           archives := [], persisted := [], fs := [] } : St).entries "zz" = none
    ∧ restore 7
        { entries := [{ path := parsePath "/a", timestamp := 1, file_count := 1 }],
          archives := [], persisted := [], fs := [] } ["zz"]
      = restore 7
        { entries := [{ path := parsePath "/a", timestamp := 1, file_count := 1 }],
          archives := [], persisted := [], fs := [] } [] := by
  refine ⟨by decide, ?_⟩
  exact ((batch_skips_unresolvable_but_io_failure_aborts 7
      { entries := [{ path := parsePath "/a", timestamp := 1, file_count := 1 }],
        archives := [], persisted := [], fs := [] } "zz" [] false).1 (by decide)).1

/-- C2 counterexample: in `--all` mode an already-missing archive file
DOES abort processing — `rm ["1"] --all` on an entry whose archive is
gone raises out of the unguarded `unlink`, the entry is NOT dropped, the
registry is not re-persisted, and with `rm ["1", "2"] --all` the second
id is never processed, although `rm ["2"] --all` alone succeeds. -/
theorem rm_all_missing_archive_counterexample :
    rm { entries := [{ path := parsePath "/a", timestamp := 1, file_count := 1 },
                     { path := parsePath "/b", timestamp := 2, file_count := 1 }],
         archives := [("b_2.zip", [("f", 7)])], persisted := [], fs := [] }
        ["1"] true
      = Except.error
        { entries := [{ path := parsePath "/a", timestamp := 1, file_count := 1 },
                      { path := parsePath "/b", timestamp := 2, file_count := 1 }],
          archives := [("b_2.zip", [("f", 7)])], persisted := [], fs := [] }
    ∧ rm { entries := [{ path := parsePath "/a", timestamp := 1, file_count := 1 },
                       { path := parsePath "/b", timestamp := 2, file_count := 1 }],
           archives := [("b_2.zip", [("f", 7)])], persisted := [], fs := [] }
        ["1", "2"] true
      = Except.error
        { entries := [{ path := parsePath "/a", timestamp := 1, file_count := 1 },
                      { path := parsePath "/b", timestamp := 2, file_count := 1 }],
          archives := [("b_2.zip", [("f", 7)])], persisted := [], fs := [] }
    ∧ (rm { entries := [{ path := parsePath "/a", timestamp := 1, file_count := 1 },
                        { path := parsePath "/b", timestamp := 2, file_count := 1 }],
            archives := [("b_2.zip", [("f", 7)])], persisted := [], fs := [] }
        ["2"] true).isOk = true := by
  decide

/-- C2 amended: in single-entry mode a missing archive is tolerated —
`rm` without `--all` never raises, and the matching entry is still
dropped with the rest of the batch processed; in `--all` mode, a missing
archive aborts the whole call (remaining entries and ids unprocessed,
final persist skipped). -/
theorem rm_missing_archive_single_tolerated_all_aborts :
    (∀ (ids : List String) (st : St), ∃ st1, rm st ids false = Except.ok st1)
    ∧ (∀ (st : St) (bak_id : String) (rest : List String) (i : Nat),
        _find_index_by_id st.entries bak_id = some i →
        lookupAssoc st.archives (zipName (st.entries.getD i default)) = none →
        rmGo false (bak_id :: rest) st
          = rmGo false rest { st with entries := st.entries.eraseIdx i })
    ∧ (∀ (st : St) (bak_id : String) (rest : List String) (dir : PyPath) (ts : Int)
        (ars : List (String × Archive)),
        _get_bak_meta st.entries bak_id = some (dir, ts) →
        unlinkChainArchives dir st.entries st.archives = Except.error ars →
        rm st (bak_id :: rest) true = Except.error { st with archives := ars }) := by
  refine ⟨?_, ?_, ?_⟩
  · intro ids st
    obtain ⟨st1, h⟩ := rmGo_false_ok ids st
    refine ⟨_to_json st1, ?_⟩
    unfold rm
    rw [h]
  · intro st bak_id rest i hidx har
    simp only [rmGo, hidx, har]
    rfl
  · intro st bak_id rest dir ts ars hmeta hunlink
    unfold rm
    have hgo : rmGo true (bak_id :: rest) st = Except.error { st with archives := ars } := by
      simp only [rmGo, hmeta, hunlink]
      rfl
    rw [hgo]

/-- C2 amended, witness: an entry (id `"1"`) whose archive is missing is
still dropped by single-entry `rm`, which does not abort. -/
theorem rm_single_tolerates_missing_archive_witness :
    _find_index_by_id
        ({ entries := [{ path := parsePath "/a", timestamp := 1, file_count := 1 }],
           archives := [], persisted := [], fs := [] } : St).entries "1" = some 0
    ∧ rmGo false ["1"]
        { entries := [{ path := parsePath "/a", timestamp := 1, file_count := 1 }],
          archives := [], persisted := [], fs := [] }
      = rmGo false []
        { entries := ([{ path := parsePath "/a", timestamp := 1, file_count := 1 }] :
            List MetaEntry).eraseIdx 0,
          archives := [], persisted := [], fs := [] } := by
  refine ⟨by decide, ?_⟩
  exact (rm_missing_archive_single_tolerated_all_aborts).2.1
    { entries := [{ path := parsePath "/a", timestamp := 1, file_count := 1 }],
      archives := [], persisted := [], fs := [] }
    "1" [] 0 (by decide) (by decide)

/-! ### Claim theorem C8 -/

/-- C8: `Metadata.__init__` on a missing state file creates the backup
directory and an empty state file and loads an empty registry (absence
is not an error), and the state file it writes re-loads as the empty
registry; a state file with unparseable content makes the load fail
fatally (the `json.JSONDecodeError` is uncaught) with no partial
registry recovered; a well-formed file loads every record. -/
theorem load_state_file_behavior :
    (metadataInit StateFile.absent
      = Except.ok { entries := [], stateFile := StateFile.wellFormed [],
                    dirCreated := true })
    ∧ (metadataInit StateFile.malformed = Except.error ())
    ∧ (∀ rs, metadataInit (StateFile.wellFormed rs)
        = Except.ok { entries := rs.map MetaEntry.ofDict,
                      stateFile := StateFile.wellFormed rs, dirCreated := false })
    ∧ (∀ r, metadataInit StateFile.absent = Except.ok r →
        metadataInit r.stateFile
          = Except.ok { entries := [], stateFile := r.stateFile, dirCreated := false }) := by
  refine ⟨rfl, rfl, fun rs => rfl, ?_⟩
  intro r h
  have hr :
      ({ entries := [], stateFile := StateFile.wellFormed [],
         dirCreated := true } : InitResult) = r := by
    injection h
  rw [← hr]
  rfl

/-- C8 witness: the empty state file written on first use re-loads as the
empty registry. -/
theorem load_state_file_behavior_witness :
    metadataInit StateFile.absent
      = Except.ok { entries := [], stateFile := StateFile.wellFormed [],
                    dirCreated := true }
    ∧ metadataInit (StateFile.wellFormed [])
      = Except.ok { entries := [], stateFile := StateFile.wellFormed [],
                    dirCreated := false } :=
  ⟨(load_state_file_behavior).1,
   (load_state_file_behavior).2.2.2
     { entries := [], stateFile := StateFile.wellFormed [], dirCreated := true } rfl⟩
